import Mathlib

/-!
Verification of the in-memory Redis-clone engine (`internal/store`,
`internal/commands` and the skip-list in the `store` package).

Modelling conventions:
* Go `float64` scores are modelled as `Int`: every claim under scrutiny only
  uses ordering and equality of scores on integral values.
* Go `time.Time` / `time.Duration` are modelled as absolute / relative
  nanosecond counts (`Int`), with the current instant `now` passed explicitly
  to the operations that call `time.Now()`.
* Go maps (`map[string]float64`, `map[string]interface{}`, `map[string]time.Time`)
  are modelled as association lists with replace-on-write semantics.  The
  `MemoryStore` maps are created with `make` and behave as empty maps.  The
  maps inside a `SortedSet` are different: the current source never
  initializes them (`ZAdd` stores a plain `&SortedSet{}` and `newSkiplist`
  is never called), so they are nil — reads behave as on an empty map, but
  any write panics; `MemoryStore.zaddGo` models that panic explicitly.
* Go's `int(d.Seconds())` on a `time.Duration` goes through float64
  arithmetic; `goIntSeconds` models the two correctly-rounded IEEE-754
  binary64 operations (the division by 1e9 and the addition) exactly, with
  integer round-to-nearest-ties-to-even at 53 bits of precision.
* The skip list is modelled by its level-0 chain together with the `length`
  field.  The higher forward-pointer levels (chosen by `randomLevel`) only
  accelerate the position search: on the states reachable by the exported
  operations the level-0 chain is kept sorted by `(score, member)`, and then
  the multi-level search of `insert`/`delete` stops at exactly the first
  level-0 node that is not below the search key, which is what the model
  computes with `takeWhile`/`dropWhile`.
* Concurrency (the `sync.RWMutex`) is outside the model: every operation is a
  pure state transformer.
-/

namespace GoRedis

/-- Scores (`float64` in the source) are modelled as integers. -/
abbrev Score := Int

/-- A node of the skip list: `skiplistNode` (member, score); the forward and
backward pointers are represented by the node's position in the chain. -/
structure SLNode where
  score : Score
  member : String
deriving DecidableEq

/-- The skip list, modelled by its level-0 chain and its `length` field. -/
structure Skiplist where
  nodes : List SLNode
  length : Int
deriving DecidableEq

/-- Model of `newSkiplist()`: empty chain, length 0. -/
def Skiplist.empty : Skiplist := ⟨[], 0⟩

/-- Lexicographic strict order on character lists by code point.  Go
compares strings byte-wise; UTF-8 byte order coincides with code-point
order, so this models Go's `<` on strings. -/
def charListLt : List Char → List Char → Bool
  | [], [] => false
  | [], _ :: _ => true
  | _ :: _, [] => false
  | c1 :: r1, c2 :: r2 =>
    if c1.toNat < c2.toNat then true
    else if c2.toNat < c1.toNat then false
    else charListLt r1 r2

/-- Go's `<` on strings. -/
def strLt (a b : String) : Bool := charListLt a.data b.data

/-- Go's `<=` on strings. -/
def strLe (a b : String) : Bool := strLt a b || a == b

/-- The strict order used by the search loops of `insert` and `delete`:
`current.forward[i].score < score || (current.forward[i].score == score &&
current.forward[i].member < member)`. -/
def nodeLt (n : SLNode) (score : Score) (member : String) : Bool :=
  decide (n.score < score) || (n.score == score && strLt n.member member)

/-- Model of `skiplist.delete(score, member)`: position the search at the first node
that is not below `(score, member)`; if that node carries `member` it is
spliced out of every level and the length is decremented, otherwise the call
is a no-op returning `false`. -/
def Skiplist.delete (sl : Skiplist) (score : Score) (member : String) :
    Skiplist × Bool :=
  let pre := sl.nodes.takeWhile (fun n => nodeLt n score member)
  match sl.nodes.dropWhile (fun n => nodeLt n score member) with
  | [] => (sl, false)
  | current :: rest =>
    if current.member == member then
      (⟨pre ++ rest, sl.length - 1⟩, true)
    else
      (sl, false)

/-- The body of `skiplist.insert(score, member)`.  The source recurses
(`sl.delete(oldScore, member); return sl.insert(score, member)`) after
mutating the found node's score in place; the recursion is bounded by the
`fuel` argument.  Two units of fuel always suffice: the recursive call is
made on a chain whose first node not below `(score, member)` carries exactly
`(score, member)`, so it returns through the `oldScore == score` branch. -/
def Skiplist.insertCore : Nat → Skiplist → Score → String → Skiplist × Bool
  | 0, sl, _, _ => (sl, false)
  | fuel + 1, sl, score, member =>
    let pre := sl.nodes.takeWhile (fun n => nodeLt n score member)
    match sl.nodes.dropWhile (fun n => nodeLt n score member) with
    | [] =>
      -- new node appended at the end of the chain
      (⟨pre ++ [⟨score, member⟩], sl.length + 1⟩, true)
    | current :: rest =>
      if current.member == member then
        -- `oldScore := current.score; current.score = score`
        if current.score == score then
          (sl, false)
        else
          -- score changed: the node's score is overwritten in place, then
          -- `delete(oldScore, member)` runs on the mutated chain, then the
          -- member is re-inserted.
          let mutated : Skiplist := ⟨pre ++ ⟨score, member⟩ :: rest, sl.length⟩
          let afterDelete := (mutated.delete current.score member).1
          Skiplist.insertCore fuel afterDelete score member
      else
        -- new node spliced in front of `current`
        (⟨pre ++ ⟨score, member⟩ :: current :: rest, sl.length + 1⟩, true)

/-- Model of `skiplist.insert(score, member)`; returns the updated list and whether a
new node was introduced. -/
def Skiplist.insert (sl : Skiplist) (score : Score) (member : String) :
    Skiplist × Bool :=
  Skiplist.insertCore 2 sl score member

/-- Model of `skiplist.getRange(start, stop)`: negative indices are resolved against
`sl.length`, `start` is raised to `0` when negative, `stop` is lowered to
`sl.length - 1` when past the end, and the nodes of the inclusive range are
collected in chain order. -/
def Skiplist.getRange (sl : Skiplist) (start stop : Int) : List SLNode :=
  let start1 := if start < 0 then sl.length + start else start
  let stop1 := if stop < 0 then sl.length + stop else stop
  let start2 := if start1 < 0 then 0 else start1
  let stop2 := if stop1 ≥ sl.length then sl.length - 1 else stop1
  if start2 > stop2 then []
  else ((sl.nodes.drop start2.toNat).take (stop2 - start2 + 1).toNat)

/-- Association-list lookup, modelling a Go map read. -/
def amGet {α : Type} : List (String × α) → String → Option α
  | [], _ => none
  | (k, v) :: rest, key => if k = key then some v else amGet rest key

/-- Association-list write, modelling a Go map assignment. -/
def amSet {α : Type} : List (String × α) → String → α → List (String × α)
  | [], key, v => [(key, v)]
  | (k, w) :: rest, key, v =>
    if k = key then (key, v) :: rest else (k, w) :: amSet rest key v

/-- Association-list removal, modelling Go's `delete(m, key)`. -/
def amDel {α : Type} : List (String × α) → String → List (String × α)
  | [], _ => []
  | (k, w) :: rest, key =>
    if k = key then amDel rest key else (k, w) :: amDel rest key

/-- An element of a range reply (`[]interface{}` in the source): a member
string or a score. -/
inductive RVal where
  | s (v : String)
  | n (v : Score)
deriving DecidableEq

/-- Model of `SortedSet`: member→score dictionary, the skip list, and the two
append-only slices `scores`/`members` used by the linear range scans. -/
structure SortedSet where
  dict : List (String × Score)
  sl : Skiplist
  scores : List Score
  members : List String
deriving DecidableEq

/-- The zero value `&SortedSet{}` created by `ZAdd` for an absent key.  Its
`dict` map and `sl` pointer are nil in Go: reads of them (length checks,
lookups) behave as on the empty containers represented here, but writing
through them panics — `SortedSet.Add` is never executable on this value and
`MemoryStore.zaddGo` models the panic. -/
def SortedSet.empty : SortedSet := ⟨[], Skiplist.empty, [], []⟩

/-- Model of `SortedSet.Range(start, stop, withScores)`: empty when the dictionary is
empty, otherwise the members (interleaved with scores when requested) of the
skip-list rank range. -/
def SortedSet.range (s : SortedSet) (start stop : Int) (withScores : Bool) :
    List RVal :=
  if s.dict.isEmpty then []
  else
    (s.sl.getRange start stop).flatMap
      (fun node => RVal.s node.member ::
        (if withScores then [RVal.n node.score] else []))

/-- Model of `SortedSet.RangeByScore(min, max, rev)`: linear scan of the
`scores`/`members` slices keeping the members whose score lies in
`[min, max]`, reversed when `rev` is set. -/
def SortedSet.rangeByScore (s : SortedSet) (min max : Score) (rev : Bool) :
    List RVal :=
  let forward :=
    ((s.scores.zip s.members).filter
        (fun p => decide (min ≤ p.1) && decide (p.1 ≤ max))).map
      (fun p => RVal.s p.2)
  if rev then forward.reverse else forward

/-- Model of `SortedSet.RangeByLex(min, max, rev)`: linear scan of the `members`
slice keeping the members within `[min, max]` lexicographically. -/
def SortedSet.rangeByLex (s : SortedSet) (min max : String) (rev : Bool) :
    List RVal :=
  let forward :=
    (s.members.filter (fun m => strLe min m && strLe m max)).map RVal.s
  if rev then forward.reverse else forward

/-- A stored value (`interface{}` in `MemoryStore.data`): a plain string or a
sorted set. -/
inductive Val where
  | str (v : String)
  | zset (z : SortedSet)
deriving DecidableEq

/-- Model of `MemoryStore`: the value map and the expiry map (absolute instants in
nanoseconds).  The `sync.RWMutex` is outside the model. -/
structure MemoryStore where
  data : List (String × Val)
  expires : List (String × Int)
deriving DecidableEq

/-- Model of `NewMemoryStore()`. -/
def MemoryStore.empty : MemoryStore := ⟨[], []⟩

/-- Model of `SetOptions`: the NX/XX/GET flags of the option registry together with
the expiry fields (`ExpiryTime` is the absolute instant computed by
`SetExpiry`; `ExpiryType` is one of "EX", "PX", "EXAT", "PXAT", "KEEPTTL" or
empty). -/
structure SetOptions where
  nx : Bool
  xx : Bool
  getOld : Bool
  expiryType : String
  expiryTime : Int
deriving DecidableEq

/-- Model of `opts != nil && opts.IsNX()` and friends, for a nilable options value. -/
def optB {α : Type} (opts : Option α) (f : α → Bool) : Bool :=
  match opts with
  | some o => f o
  | none => false

/-- Model of `MemoryStore.Set(key, value, opts)`: NX/XX guards first (returning an
error and leaving the store untouched), then the write, then the expiry
policy, then the GET result. -/
def MemoryStore.set (st : MemoryStore) (key : String) (value : Val)
    (opts : Option SetOptions) : MemoryStore × Except String (Option Val) :=
  let oldValue := amGet st.data key
  if optB opts SetOptions.nx && oldValue.isSome then
    (st, Except.error "key already exists")
  else if optB opts SetOptions.xx && oldValue.isNone then
    (st, Except.error "key does not exist")
  else
    let data1 := amSet st.data key value
    let expires1 :=
      match opts with
      | some o =>
        if o.expiryType == "KEEPTTL" then st.expires
        else if o.expiryType != "" then amSet st.expires key o.expiryTime
        else amDel st.expires key
      | none => amDel st.expires key
    let ret : Option Val :=
      match opts with
      | some o => if o.getOld then oldValue else none
      | none => none
    (⟨data1, expires1⟩, Except.ok ret)

/-- Model of `MemoryStore.Del(key)`: removes the value and the expiry; never errors. -/
def MemoryStore.del (st : MemoryStore) (key : String) :
    MemoryStore × Except String Unit :=
  (⟨amDel st.data key, amDel st.expires key⟩, Except.ok ())

/-- Model of `DelCommand.Execute`: deletes every key in turn and counts the calls
that returned no error. -/
def DelCommand.execute (keys : List String) (st : MemoryStore) :
    MemoryStore × Int :=
  keys.foldl
    (fun acc key =>
      let r := MemoryStore.del acc.1 key
      match r.2 with
      | Except.ok _ => (r.1, acc.2 + 1)
      | Except.error _ => (r.1, acc.2))
    (st, 0)

/-- Model of `ExpireOptions`: the NX/XX/GT/LT flags. -/
structure ExpireOptions where
  nx : Bool
  xx : Bool
  gt : Bool
  lt : Bool
deriving DecidableEq

/-- Model of `MemoryStore.Expire(key, ttl, opts)` at instant `now`: NotFound when the
key is absent; NX/XX/GT/LT guards against the current (unexpired) expiry;
`ttl ≤ 0` deletes the key outright; otherwise the expiry becomes
`now + ttl`. -/
def MemoryStore.expire (st : MemoryStore) (now : Int) (key : String)
    (ttl : Int) (opts : Option ExpireOptions) :
    MemoryStore × Except String Unit :=
  if (amGet st.data key).isNone then
    (st, Except.error "key does not exist")
  else
    -- `hasExpiry = !time.Now().After(expiry)` for a present expiry
    let hasExpiry :=
      match amGet st.expires key with
      | some expiry => !decide (now > expiry)
      | none => false
    -- `currentTTL := time.Until(s.expires[key])`
    let currentTTL := (amGet st.expires key).getD 0 - now
    if optB opts ExpireOptions.nx && hasExpiry then
      (st, Except.error "key already has an expiry")
    else if optB opts ExpireOptions.xx && !hasExpiry then
      (st, Except.error "key has no expiry")
    else if optB opts ExpireOptions.gt && hasExpiry && decide (ttl ≤ currentTTL) then
      (st, Except.error "new expiry is not greater than current one")
    else if optB opts ExpireOptions.lt && hasExpiry && decide (ttl ≥ currentTTL) then
      (st, Except.error "new expiry is not less than current one")
    else if ttl ≤ 0 then
      (⟨amDel st.data key, amDel st.expires key⟩, Except.ok ())
    else
      (⟨st.data, amSet st.expires key (now + ttl)⟩, Except.ok ())

/-- Round to nearest, ties to even: the integer nearest to `a / b`. -/
def rne (a b : Nat) : Nat :=
  let q := a / b
  let r := a % b
  if 2 * r < b then q
  else if b < 2 * r then q + 1
  else if q % 2 = 0 then q else q + 1

/-- Fuelled floor base-2 logarithm (`⌊log₂ n⌋` once the fuel is at least
the recursion depth, which `n` itself always is). -/
def log2fuel : Nat → Nat → Nat
  | 0, _ => 0
  | fuel + 1, n => if 2 ≤ n then log2fuel fuel (n / 2) + 1 else 0

/-- `⌊log₂ n⌋` for `n ≥ 1` (0 at 0). -/
def nlog2 (n : Nat) : Nat := log2fuel n n

/-- The IEEE-754 binary64 rounding (round to nearest, ties to even) of the
rational `a / b`, as a dyadic pair `(m, k)` denoting `m / 2^k`.  The value
is scaled into the 53-bit significand range `[2^52, 2^53]` of its binade
`[2^e, 2^(e+1))` and rounded there.  Faithful for finite positive values in
the normal range, which covers everything `Duration.Seconds` computes. -/
def roundFloat (a b : Nat) : Nat × Nat :=
  if a = 0 then (0, 0)
  else if b ≤ a then
    let e := nlog2 (a / b)
    if 52 ≤ e then (rne a (b * 2 ^ (e - 52)) * 2 ^ (e - 52), 0)
    else (rne (a * 2 ^ (52 - e)) b, 52 - e)
  else
    -- a / b < 1: the binade exponent is -g, the smallest g with b ≤ a * 2^g
    let h := nlog2 (b / a)
    let g := if b ≤ a * 2 ^ h then h
      else if b ≤ a * 2 ^ (h + 1) then h + 1 else h + 2
    (rne (a * 2 ^ (52 + g)) b, 52 + g)

/-- Model of Go's `int(d.Seconds())` for a duration of `ns` nanoseconds
(`ns ≥ 0`): `Duration.Seconds` returns `float64(sec) + float64(nsec)/1e9`
where `sec := d / 1e9` and `nsec := d % 1e9` — both conversions are exact in
the int64 range, the division and the addition are each one correctly
rounded binary64 operation — and the `int` conversion truncates (floor for
the nonnegative values modelled here). -/
def goIntSeconds (ns : Nat) : Nat :=
  let sec := ns / 1000000000
  let nsec := ns % 1000000000
  let d1 := roundFloat nsec 1000000000
  let s := roundFloat (sec * 2 ^ d1.2 + d1.1) (2 ^ d1.2)
  s.1 / 2 ^ s.2

/-- Model of `MemoryStore.TTL(key)` at instant `now`: the remaining time in
whole seconds computed by `int(ttl.Seconds())` (modelled by `goIntSeconds`,
float64 rounding included) when an unexpired expiry exists, `-2` for an
expired or absent key, `-1` for a key with no expiry. -/
def MemoryStore.ttl (st : MemoryStore) (now : Int) (key : String) :
    Except String Int :=
  match amGet st.expires key with
  | some expiry =>
    if 0 < expiry - now then
      Except.ok ((goIntSeconds (expiry - now).toNat : Nat) : Int)
    else Except.ok (-2)
  | none =>
    if (amGet st.data key).isNone then Except.ok (-2) else Except.ok (-1)

/-- Model of `types.ScoreMember`. -/
structure ScoreMember where
  score : Score
  member : String
deriving DecidableEq

/-- Model of `ZAddOptions`: the NX/XX/GT/LT/CH/INCR flags. -/
structure ZAddOptions where
  nx : Bool
  xx : Bool
  gt : Bool
  lt : Bool
  ch : Bool
  incr : Bool
deriving DecidableEq

/-- A `ZAdd` reply: an element count, or the new score under INCR. -/
inductive ZAddRet where
  | count (n : Int)
  | newScore (x : Score)
deriving DecidableEq

/-- Outcome of a Go call that can return normally or panic. -/
inductive GoOutcome (α : Type) where
  | ret (v : α)
  | panic (msg : String)
deriving DecidableEq

/-- Whether the `MemoryStore.ZAdd` member loop reaches a `SortedSet.Add`
call: true exactly when some member passes its NX/XX/GT/LT guards.  The
guards read the set's dictionary and no skipped member changes it, so the
first member to pass is judged against the original dictionary (Go's nil
map read yields the zero score for an absent member). -/
def zaddHitsAdd (zset : SortedSet) (members : List ScoreMember)
    (opts : Option ZAddOptions) : Bool :=
  members.any (fun sm =>
    let oldScore := amGet zset.dict sm.member
    let ex := oldScore.isSome
    !(optB opts ZAddOptions.nx && ex
      || optB opts ZAddOptions.xx && !ex
      || optB opts ZAddOptions.gt && ex && decide (sm.score ≤ oldScore.getD 0)
      || optB opts ZAddOptions.lt && ex && decide (sm.score ≥ oldScore.getD 0)))

/-- The body of `MemoryStore.ZAdd` once the key's sorted set `zset` has been
fetched or freshly created (the source stores the set in the map before
handling any option, so the INCR error paths keep it).  No code path ever
initializes a `SortedSet`'s `dict` map or `sl` skip list — `ZAdd` creates a
plain `&SortedSet{}` and `newSkiplist` has no caller — so every
`SortedSet.Add` call executes `s.dict[member] = score` on a nil map and
panics; the first member to pass its guards therefore crashes the call, and
a count is only returned when every member is skipped. -/
def MemoryStore.zaddWithGo (st : MemoryStore) (key : String)
    (zset : SortedSet) (members : List ScoreMember)
    (opts : Option ZAddOptions) :
    GoOutcome (MemoryStore × Except String ZAddRet) :=
  let st0 : MemoryStore := ⟨amSet st.data key (Val.zset zset), st.expires⟩
  if optB opts ZAddOptions.incr then
    match members with
    | [sm] =>
      match amGet zset.dict sm.member with
      | none => GoOutcome.ret (st0, Except.error "element does not exist")
      | some _ =>
        -- `zset.Add(sm.Member, newScore)` writes the nil dict
        GoOutcome.panic "assignment to entry in nil map"
    | _ =>
      GoOutcome.ret
        (st0, Except.error "INCR option requires exactly one score-member pair")
  else if zaddHitsAdd zset members opts then
    -- the first non-skipped member runs `zset.Add` on the nil dict
    GoOutcome.panic "assignment to entry in nil map"
  else
    GoOutcome.ret (st0, Except.ok (ZAddRet.count
      (if optB opts ZAddOptions.ch then 0 else (members.length : Int))))

/-- Model of `MemoryStore.ZAdd(key, members, opts)` with the nil-map panic
made explicit: WrongType on a non-set value, a fresh `&SortedSet{}` for an
absent key, and a panic as soon as any member is actually upserted. -/
def MemoryStore.zaddGo (st : MemoryStore) (key : String)
    (members : List ScoreMember) (opts : Option ZAddOptions) :
    GoOutcome (MemoryStore × Except String ZAddRet) :=
  match amGet st.data key with
  | some (Val.zset z) => MemoryStore.zaddWithGo st key z members opts
  | some (Val.str _) =>
    GoOutcome.ret
      (st, Except.error "WRONGTYPE Operation against a key holding the wrong kind of value")
  | none => MemoryStore.zaddWithGo st key SortedSet.empty members opts

/-- A `ZRange` bound (`interface{}` in the source): a Go `int` rank, a
`float64` score, or a lexicographic string. -/
inductive RangeArg where
  | i (v : Int)
  | f (v : Score)
  | s (v : String)
deriving DecidableEq

/-- Model of `ZRangeOptions`: range type ("BYSCORE", "BYLEX" or "" for by-rank), REV,
the LIMIT offset/count pair and WITHSCORES. -/
structure ZRangeOptions where
  rangeType : String
  rev : Bool
  limitOffset : Int
  limitCount : Int
  withScores : Bool
deriving DecidableEq

/-- The dispatch step of `MemoryStore.ZRange` on the key's sorted set:
by-score and by-lex coerce their bounds (erroring on a mismatched kind),
by-rank coerces to integer ranks and forwards WITHSCORES. -/
def zrangeDispatch (zset : SortedSet) (start stop : RangeArg)
    (opts : Option ZRangeOptions) : Except String (List RVal) :=
  if optB opts (fun o => o.rangeType == "BYSCORE") then
    match start, stop with
    | RangeArg.f minScore, RangeArg.f maxScore =>
      Except.ok (zset.rangeByScore minScore maxScore (optB opts ZRangeOptions.rev))
    | RangeArg.f _, _ => Except.error "invalid score range stop"
    | _, _ => Except.error "invalid score range start"
  else if optB opts (fun o => o.rangeType == "BYLEX") then
    match start, stop with
    | RangeArg.s minLex, RangeArg.s maxLex =>
      Except.ok (zset.rangeByLex minLex maxLex (optB opts ZRangeOptions.rev))
    | RangeArg.s _, _ => Except.error "invalid lex range stop"
    | _, _ => Except.error "invalid lex range start"
  else
    match start, stop with
    | RangeArg.i startIdx, RangeArg.i stopIdx =>
      Except.ok (zset.range startIdx stopIdx (optB opts ZRangeOptions.withScores))
    | RangeArg.i _, _ => Except.error "invalid index range stop"
    | _, _ => Except.error "invalid index range start"

/-- The LIMIT block of `MemoryStore.ZRange`: whenever `Limit.Count > 0` the
result is truncated to `result[offset : min(offset+count, len)]` (empty once
the offset is past the end). -/
def zrangeLimit (opts : Option ZRangeOptions) (result : List RVal) :
    List RVal :=
  match opts with
  | some o =>
    if o.limitCount > 0 then
      if o.limitOffset ≥ (result.length : Int) then []
      else
        (result.drop o.limitOffset.toNat).take
          ((min (o.limitOffset + o.limitCount) (result.length : Int))
            - o.limitOffset).toNat
    else result
  | none => result

/-- Model of `MemoryStore.ZRange(key, start, stop, opts)`: empty for an absent key,
WrongType for a plain string, otherwise dispatch then LIMIT. -/
def MemoryStore.zrange (st : MemoryStore) (key : String)
    (start stop : RangeArg) (opts : Option ZRangeOptions) :
    Except String (List RVal) :=
  match amGet st.data key with
  | none => Except.ok []
  | some (Val.str _) =>
    Except.error "WRONGTYPE Operation against a key holding the wrong kind of value"
  | some (Val.zset zset) =>
    (zrangeDispatch zset start stop opts).map (zrangeLimit opts)

/-! Spec-side definitions (each modelled from the words of the spec, to be
compared with the source-side definitions above) and the concrete states the
individual claims are evaluated on. -/

/-- Modelled from the spec: `rangeByRank(start, stop)` resolves a negative
index `i` as `length + i`, clamps the resulting inclusive rank interval to
`[0, length-1]`, and returns the nodes of that interval in ascending order
(empty when start exceeds stop after clamping). -/
def rangeByRankSpec (l : List SLNode) (start stop : Int) : List SLNode :=
  let s := max (if start < 0 then (l.length : Int) + start else start) 0
  let t := min (if stop < 0 then (l.length : Int) + stop else stop)
    ((l.length : Int) - 1)
  if s > t then [] else (l.drop s.toNat).take (t - s + 1).toNat

/-- The LIMIT truncation as a standalone function:
`result[offset : min(offset+count, len)]`, empty when the offset is at or
past the end. -/
def applyLimit (offset count : Int) (result : List RVal) : List RVal :=
  if offset ≥ (result.length : Int) then []
  else
    (result.drop offset.toNat).take
      ((min (offset + count) (result.length : Int)) - offset).toNat

/-- Folding plain deletions over a key list (the state component of
`DelCommand.Execute`). -/
def delFold (st : MemoryStore) (keys : List String) : MemoryStore :=
  keys.foldl (fun s key => (MemoryStore.del s key).1) st

/-- Store value for claim C7: the key "k" holds a sorted set with members
"a","b","c" at scores 1,2,3 (dictionary, ordered index of length 3, and the
parallel scores/members slices all agree). -/
def C7_state : MemoryStore :=
  ⟨[("k", Val.zset ⟨[("a", 1), ("b", 2), ("c", 3)],
      ⟨[⟨1, "a"⟩, ⟨2, "b"⟩, ⟨3, "c"⟩], 3⟩, [1, 2, 3], ["a", "b", "c"]⟩)], []⟩

/-- Store value for claim C10: the key "k" holds a sorted set with members
"a","b","c" at scores 1,2,3. -/
def C10_state : MemoryStore :=
  ⟨[("k", Val.zset ⟨[("a", 1), ("b", 2), ("c", 3)],
      ⟨[⟨1, "a"⟩, ⟨2, "b"⟩, ⟨3, "c"⟩], 3⟩, [1, 2, 3], ["a", "b", "c"]⟩)], []⟩

/-! Shared lemmas about the association-list map model. -/

theorem amGet_amSet_self {α : Type} (l : List (String × α)) (k : String)
    (v : α) : amGet (amSet l k v) k = some v := by
  induction l with
  | nil => simp [amSet, amGet]
  | cons p rest ih =>
    obtain ⟨k1, w⟩ := p
    by_cases h : k1 = k
    · simp [amSet, amGet, h]
    · simp [amSet, amGet, h, ih]

theorem amGet_amDel {α : Type} (l : List (String × α)) (k k2 : String) :
    amGet (amDel l k) k2 = if k2 = k then none else amGet l k2 := by
  induction l with
  | nil => simp [amDel, amGet]
  | cons p rest ih =>
    obtain ⟨k1, w⟩ := p
    by_cases h : k1 = k
    · subst h
      rw [amDel, if_pos rfl, ih]
      by_cases h2 : k2 = k1
      · simp [h2]
      · simp only [if_neg h2, amGet]
        rw [if_neg (fun hh => h2 hh.symm)]
    · rw [amDel, if_neg h]
      by_cases h2 : k2 = k
      · subst h2
        rw [if_pos rfl, amGet, if_neg (fun hh => h hh), ih, if_pos rfl]
      · rw [if_neg h2, amGet, amGet, ih, if_neg h2]

theorem amDel_of_absent {α : Type} (l : List (String × α)) (k : String)
    (h : amGet l k = none) : amDel l k = l := by
  induction l with
  | nil => rfl
  | cons p rest ih =>
    obtain ⟨k1, w⟩ := p
    rw [amGet] at h
    by_cases h1 : k1 = k
    · rw [if_pos h1] at h; exact absurd h (by simp)
    · rw [if_neg h1] at h
      rw [amDel, if_neg h1, ih h]

/-! Claim C1. -/

/-- Claim C1 (evidence of the code bug): the very first upsert of any zAdd
sequence panics.  `ZADD k 1 a` on an empty store creates `&SortedSet{}`
with a nil `dict` and a nil `sl`, stores it, and then `SortedSet.Add`
assigns into the nil map (and would dereference the nil skip-list pointer),
so no member is ever placed into the two structures and no nonempty sorted
set is zAdd-reachable — the upsert that the claim says maintains the
cross-structure invariant never completes. -/
theorem C1_failing_eval :
    MemoryStore.zaddGo MemoryStore.empty "k" [⟨1, "a"⟩] none
      = GoOutcome.panic "assignment to entry in nil map" :=
  rfl

/-! Claim C4. -/

/-- Claim C4 (evidence of the code bug): inserting `(2,"a")` into a skip
list that already holds the member "a" (as the node `(1,"a")`) returns
`true` and leaves two nodes for "a", whereas the claim requires `insert` to
return `false` for an already-present member after a logical
delete-and-reinsert. -/
theorem C4_failing_eval :
    ((⟨[⟨1, "a"⟩], 1⟩ : Skiplist).nodes.any (fun n => n.member == "a")) = true
    ∧ Skiplist.insert ⟨[⟨1, "a"⟩], 1⟩ 2 "a" = (⟨[⟨1, "a"⟩, ⟨2, "a"⟩], 2⟩, true) :=
  ⟨rfl, rfl⟩

/-! Claim C2. -/

/-- Claim C2 (counterexample): with the key "k" holding "v1", a `SET`
carrying NX and GET returns the error of the failed NX guard and not the
previously stored value, contradicting the claim that GET reports the old
value independently of the write outcome. -/
theorem C2_counterexample :
    (MemoryStore.set ⟨[("k", Val.str "v1")], []⟩ "k" (Val.str "v2")
        (some ⟨true, false, true, "", 0⟩)).2 = Except.error "key already exists"
    ∧ (MemoryStore.set ⟨[("k", Val.str "v1")], []⟩ "k" (Val.str "v2")
        (some ⟨true, false, true, "", 0⟩)).2 ≠ Except.ok (some (Val.str "v1")) :=
  ⟨rfl, fun h => Except.noConfusion h⟩

/-- Claim C2 (amended): when the GET option is set and neither guard blocks
the write (NX with an absent key, XX with a present key), `SET` returns the
previously stored value, or absence when there was none. -/
theorem C2_amended (st : MemoryStore) (key : String) (v : Val)
    (o : SetOptions) (hget : o.getOld = true)
    (hnx : o.nx = true → amGet st.data key = none)
    (hxx : o.xx = true → (amGet st.data key).isSome = true) :
    (MemoryStore.set st key v (some o)).2 = Except.ok (amGet st.data key) := by
  have h1 : (optB (some o) SetOptions.nx && (amGet st.data key).isSome) = false := by
    cases hn : o.nx
    · simp [optB, hn]
    · simp [optB, hn, hnx hn]
  have h2 : (optB (some o) SetOptions.xx && (amGet st.data key).isNone) = false := by
    cases hx : o.xx
    · simp [optB, hx]
    · have hs := hxx hx
      cases hgot : amGet st.data key with
      | none => rw [hgot] at hs; exact absurd hs (by simp)
      | some w => simp [optB, hx, hgot]
  rw [MemoryStore.set]
  rw [h1, if_neg (by simp), h2, if_neg (by simp)]
  simp [hget]

/-- Claim C2 (witness for the amended theorem): on an empty store, NX+GET
set of "k" succeeds and reports absence. -/
theorem C2_amended_witness :
    (MemoryStore.set MemoryStore.empty "k" (Val.str "v")
        (some ⟨true, false, true, "", 0⟩)).2
      = Except.ok (amGet (MemoryStore.empty).data "k") :=
  C2_amended MemoryStore.empty "k" (Val.str "v") ⟨true, false, true, "", 0⟩
    rfl (fun _ => rfl) (fun h => Bool.noConfusion h)

/-! Claim C8. -/

/-- Claim C8: `SET` with NX on an existing key, and `SET` with XX on an
absent key, fail with the corresponding error and return the store exactly
as it was (no change to the value or the expiry of any key). -/
theorem C8_set_guards (st : MemoryStore) (key : String) (v : Val)
    (o : SetOptions) :
    (o.nx = true → (amGet st.data key).isSome = true →
      MemoryStore.set st key v (some o) = (st, Except.error "key already exists"))
    ∧ (o.xx = true → amGet st.data key = none →
      MemoryStore.set st key v (some o) = (st, Except.error "key does not exist")) := by
  constructor
  · intro hn hs
    rw [MemoryStore.set]
    rw [if_pos (by simp [optB, hn, hs])]
  · intro hx habs
    rw [MemoryStore.set]
    rw [if_neg (by simp [habs]), if_pos (by simp [optB, hx, habs])]

/-- Claim C8 (witness): NX set of the existing key "k" fails and returns
the untouched store. -/
theorem C8_set_guards_witness :
    MemoryStore.set ⟨[("k", Val.str "old")], [("k", 7)]⟩ "k" (Val.str "new")
        (some ⟨true, false, false, "", 0⟩)
      = (⟨[("k", Val.str "old")], [("k", 7)]⟩, Except.error "key already exists") :=
  (C8_set_guards ⟨[("k", Val.str "old")], [("k", 7)]⟩ "k" (Val.str "new")
    ⟨true, false, false, "", 0⟩).1 rfl rfl

/-! Claim C3. -/

theorem delExecute_eq (keys : List String) (st : MemoryStore) :
    DelCommand.execute keys st = (delFold st keys, (keys.length : Int)) := by
  suffices h : ∀ (keys : List String) (st : MemoryStore) (n : Int),
      keys.foldl
        (fun acc key =>
          let r := MemoryStore.del acc.1 key
          match r.2 with
          | Except.ok _ => (r.1, acc.2 + 1)
          | Except.error _ => (r.1, acc.2))
        (st, n)
      = (delFold st keys, n + (keys.length : Int)) by
    rw [DelCommand.execute, h keys st 0]
    simp
  intro keys
  induction keys with
  | nil => intro st n; simp [delFold]
  | cons key rest ih =>
    intro st n
    rw [List.foldl_cons]
    show rest.foldl _ ((MemoryStore.del st key).1, n + 1) = _
    rw [ih (MemoryStore.del st key).1 (n + 1)]
    have hfold : delFold st (key :: rest) = delFold (MemoryStore.del st key).1 rest := rfl
    rw [hfold, List.length_cons]
    simp only [Prod.mk.injEq]
    refine ⟨trivial, ?_⟩
    push_cast
    ring

theorem delFold_absent (keys : List String) (st : MemoryStore) (k : String)
    (hd : amGet st.data k = none) (he : amGet st.expires k = none) :
    amGet (delFold st keys).data k = none
    ∧ amGet (delFold st keys).expires k = none := by
  induction keys generalizing st with
  | nil => exact ⟨hd, he⟩
  | cons key rest ih =>
    rw [delFold, List.foldl_cons]
    refine ih (MemoryStore.del st key).1 ?_ ?_
    · rw [MemoryStore.del]
      show amGet (amDel st.data key) k = none
      rw [amGet_amDel]
      split <;> simp [hd]
    · rw [MemoryStore.del]
      show amGet (amDel st.expires key) k = none
      rw [amGet_amDel]
      split <;> simp [he]

theorem delFold_member (keys : List String) (k : String) :
    ∀ st : MemoryStore, k ∈ keys →
      amGet (delFold st keys).data k = none
      ∧ amGet (delFold st keys).expires k = none := by
  induction keys with
  | nil => intro st hk; cases hk
  | cons key rest ih =>
    intro st hk
    rw [delFold, List.foldl_cons]
    rcases List.mem_cons.mp hk with h | h
    · subst h
      refine delFold_absent rest (MemoryStore.del st k).1 k ?_ ?_
      · show amGet (amDel st.data k) k = none
        rw [amGet_amDel, if_pos rfl]
      · show amGet (amDel st.expires k) k = none
        rw [amGet_amDel, if_pos rfl]
    · exact ih (MemoryStore.del st key).1 h

theorem delFold_fixpoint (keys : List String) (st : MemoryStore)
    (h : ∀ k ∈ keys, amGet st.data k = none ∧ amGet st.expires k = none) :
    delFold st keys = st := by
  induction keys generalizing st with
  | nil => rfl
  | cons key rest ih =>
    rw [delFold, List.foldl_cons]
    have hkey := h key (List.mem_cons_self key rest)
    have hdel : (MemoryStore.del st key).1 = st := by
      rw [MemoryStore.del]
      show (⟨amDel st.data key, amDel st.expires key⟩ : MemoryStore) = st
      rw [amDel_of_absent st.data key hkey.1, amDel_of_absent st.expires key hkey.2]
    rw [hdel]
    exact ih st (fun k hk => h k (List.mem_cons_of_mem key hk))

/-- Claim C3 (counterexample): deleting the absent key "nokey" from an empty
store returns the count 1 — the number of keys supplied — while the number
of supplied keys that were present is 0. -/
theorem C3_counterexample :
    (DelCommand.execute ["nokey"] MemoryStore.empty).2 = 1
    ∧ amGet (MemoryStore.empty).data "nokey" = none :=
  ⟨rfl, rfl⟩

/-- Claim C3 (amended): `del` removes the value and the expiry of every key
given, never errors, is idempotent, and returns the number of keys supplied
(not the number of keys that were present). -/
theorem C3_amended (keys : List String) (st : MemoryStore) :
    (DelCommand.execute keys st).2 = (keys.length : Int)
    ∧ (∀ k ∈ keys,
        amGet (DelCommand.execute keys st).1.data k = none
        ∧ amGet (DelCommand.execute keys st).1.expires k = none)
    ∧ DelCommand.execute keys (DelCommand.execute keys st).1
        = ((DelCommand.execute keys st).1, (keys.length : Int)) := by
  refine ⟨?_, ?_, ?_⟩
  · rw [delExecute_eq]
  · intro k hk
    rw [delExecute_eq]
    exact delFold_member keys k st hk
  · rw [delExecute_eq, delExecute_eq]
    show (delFold (delFold st keys) keys, (keys.length : Int))
      = (delFold st keys, (keys.length : Int))
    rw [delFold_fixpoint keys (delFold st keys)
      (fun k hk => delFold_member keys k st hk)]

/-- Claim C3 (witness for the amended theorem): deleting "k1" removes its
value and its expiry. -/
theorem C3_amended_witness :
    amGet (DelCommand.execute ["k1"] ⟨[("k1", Val.str "v")], [("k1", 5)]⟩).1.data "k1" = none
    ∧ amGet (DelCommand.execute ["k1"] ⟨[("k1", Val.str "v")], [("k1", 5)]⟩).1.expires "k1" = none :=
  (C3_amended ["k1"] ⟨[("k1", Val.str "v")], [("k1", 5)]⟩).2.1 "k1"
    (List.mem_cons_self "k1" [])

/-! Claim C5. -/

/-- Claim C5 (evidence of the code bug): a zAdd invocation that performs an
upsert never returns a count — `ZADD k CH 1 a` on an empty store panics in
`SortedSet.Add` on the nil dictionary of the freshly created set — while an
invocation whose members are all skipped by a guard does return, and then
returns the request size without CH and the changed-count 0 with CH (here
with the XX guard skipping the only member). -/
theorem C5_failing_eval :
    MemoryStore.zaddGo MemoryStore.empty "k" [⟨1, "a"⟩]
        (some ⟨false, false, false, false, true, false⟩)
      = GoOutcome.panic "assignment to entry in nil map"
    ∧ MemoryStore.zaddGo MemoryStore.empty "k" [⟨1, "a"⟩]
        (some ⟨false, true, false, false, false, false⟩)
      = GoOutcome.ret (⟨[("k", Val.zset SortedSet.empty)], []⟩,
          Except.ok (ZAddRet.count 1))
    ∧ MemoryStore.zaddGo MemoryStore.empty "k" [⟨1, "a"⟩]
        (some ⟨false, true, false, false, true, false⟩)
      = GoOutcome.ret (⟨[("k", Val.zset SortedSet.empty)], []⟩,
          Except.ok (ZAddRet.count 0)) :=
  ⟨rfl, rfl, rfl⟩


/-! Claim C9. -/

theorem rne_mem (a b : Nat) : rne a b = a / b ∨ rne a b = a / b + 1 := by
  have h : rne a b
      = if 2 * (a % b) < b then a / b
        else if b < 2 * (a % b) then a / b + 1
        else if a / b % 2 = 0 then a / b else a / b + 1 := rfl
  rw [h]
  split_ifs <;> simp

theorem rne_one (a : Nat) : rne a 1 = a := by
  have h : rne a 1
      = if 2 * (a % 1) < 1 then a / 1
        else if 1 < 2 * (a % 1) then a / 1 + 1
        else if a / 1 % 2 = 0 then a / 1 else a / 1 + 1 := rfl
  rw [h, Nat.mod_one]
  simp

theorem log2fuel_le : ∀ (fuel n : Nat), 0 < n → 2 ^ log2fuel fuel n ≤ n := by
  intro fuel
  induction fuel with
  | zero => intro n hn; simpa [log2fuel] using hn
  | succ f ih =>
    intro n hn
    rw [log2fuel]
    split_ifs with h2
    · have hrec := ih (n / 2) (by omega)
      rw [pow_succ]
      omega
    · simpa [log2fuel] using hn

theorem nlog2_le (n : Nat) (hn : 0 < n) : 2 ^ nlog2 n ≤ n :=
  log2fuel_le n n hn

theorem roundFloat_zero (b : Nat) : roundFloat 0 b = (0, 0) := by
  simp [roundFloat]

theorem roundFloat_ge (a b : Nat) (ha : a ≠ 0) (hba : b ≤ a)
    (h52 : nlog2 (a / b) < 52) :
    roundFloat a b
      = (rne (a * 2 ^ (52 - nlog2 (a / b))) b, 52 - nlog2 (a / b)) := by
  rw [roundFloat, if_neg ha, if_pos hba, if_neg (by omega)]

theorem roundFloat_lt (a b : Nat) (ha : a ≠ 0) (hba : ¬ b ≤ a) :
    ∃ g, roundFloat a b = (rne (a * 2 ^ (52 + g)) b, 52 + g) := by
  rw [roundFloat, if_neg ha, if_neg hba]
  exact ⟨_, rfl⟩

theorem roundFloat_le_pow (a b : Nat) (hb : 0 < b) (hab : a < b) :
    (roundFloat a b).1 ≤ 2 ^ (roundFloat a b).2 := by
  by_cases ha : a = 0
  · rw [ha, roundFloat_zero]
    simp
  · obtain ⟨g, hg⟩ := roundFloat_lt a b ha (by omega)
    rw [hg]
    show rne (a * 2 ^ (52 + g)) b ≤ 2 ^ (52 + g)
    have hq : a * 2 ^ (52 + g) / b < 2 ^ (52 + g) := by
      rw [Nat.div_lt_iff_lt_mul hb, Nat.mul_comm (2 ^ (52 + g)) b]
      exact (Nat.mul_lt_mul_right (pow_pos (by omega) _)).mpr hab
    rcases rne_mem (a * 2 ^ (52 + g)) b with h | h <;> omega

theorem roundFloat_nat (sec : Nat) (h0 : 0 < sec)
    (hs : sec < 4503599627370496) :
    (roundFloat sec 1).1 / 2 ^ (roundFloat sec 1).2 = sec := by
  have he : nlog2 (sec / 1) < 52 := by
    rw [Nat.div_one]
    by_contra hc
    push_neg at hc
    have h2pow : (2 : Nat) ^ 52 = 4503599627370496 := by norm_num
    have h1 : (2 : Nat) ^ 52 ≤ 2 ^ nlog2 sec :=
      Nat.pow_le_pow_right (by omega) hc
    have h2 := nlog2_le sec h0
    omega
  rw [roundFloat_ge sec 1 (by omega) (by omega) he, rne_one]
  exact Nat.mul_div_cancel sec (pow_pos (by omega) _)

theorem rne_scaled_bounds (sec m k K : Nat) (hm : m ≤ 2 ^ k) (hK2 : 2 ≤ K) :
    sec ≤ rne ((sec * 2 ^ k + m) * K) (2 ^ k) / K
    ∧ rne ((sec * 2 ^ k + m) * K) (2 ^ k) / K ≤ sec + 1 := by
  have hB : 0 < 2 ^ k := pow_pos (by omega) k
  have hK0 : 0 < K := by omega
  have hAK : (sec * 2 ^ k + m) * K = m * K + 2 ^ k * (sec * K) := by ring
  have hQ : (sec * 2 ^ k + m) * K / 2 ^ k = m * K / 2 ^ k + sec * K := by
    rw [hAK, Nat.add_mul_div_left _ _ hB]
  have hF : m * K / 2 ^ k ≤ K := by
    calc m * K / 2 ^ k ≤ 2 ^ k * K / 2 ^ k :=
        Nat.div_le_div_right (Nat.mul_le_mul_right K hm)
      _ = K := Nat.mul_div_cancel_left K hB
  constructor
  · rw [Nat.le_div_iff_mul_le hK0]
    have h1 : sec * K ≤ (sec * 2 ^ k + m) * K / 2 ^ k := by
      rw [hQ]
      exact Nat.le_add_left _ _
    rcases rne_mem ((sec * 2 ^ k + m) * K) (2 ^ k) with h | h
    · rw [h]
      exact h1
    · rw [h]
      exact le_trans h1 (Nat.le_succ _)
  · have h2 : (sec * 2 ^ k + m) * K / 2 ^ k ≤ K + sec * K := by
      rw [hQ]
      exact Nat.add_le_add_right hF _
    have hup : rne ((sec * 2 ^ k + m) * K) (2 ^ k) ≤ K + sec * K + 1 := by
      rcases rne_mem ((sec * 2 ^ k + m) * K) (2 ^ k) with h | h
      · rw [h]
        exact le_trans h2 (Nat.le_succ _)
      · rw [h]
        exact Nat.succ_le_succ h2
    have hlt : rne ((sec * 2 ^ k + m) * K) (2 ^ k) < (sec + 2) * K := by
      have hexp : (sec + 2) * K = sec * K + 2 * K := by ring
      rw [hexp]
      omega
    have h3 : rne ((sec * 2 ^ k + m) * K) (2 ^ k) / K < sec + 2 := by
      rw [Nat.div_lt_iff_lt_mul hK0]
      exact hlt
    exact Nat.lt_succ_iff.mp h3

theorem roundFloat_int_bounds (sec m k : Nat) (hm : m ≤ 2 ^ k)
    (hsec : sec < 17179869184) :
    sec ≤ (roundFloat (sec * 2 ^ k + m) (2 ^ k)).1
        / 2 ^ (roundFloat (sec * 2 ^ k + m) (2 ^ k)).2
    ∧ (roundFloat (sec * 2 ^ k + m) (2 ^ k)).1
        / 2 ^ (roundFloat (sec * 2 ^ k + m) (2 ^ k)).2 ≤ sec + 1 := by
  have hB : 0 < 2 ^ k := pow_pos (by omega) k
  have h2pow : (2 : Nat) ^ 52 = 4503599627370496 := by norm_num
  by_cases hA0 : sec * 2 ^ k + m = 0
  · have hs0 : sec = 0 := by
      by_contra h
      have h1 : 2 ^ k ≤ sec * 2 ^ k := Nat.le_mul_of_pos_left _ (by omega)
      omega
    rw [hA0, roundFloat_zero]
    simp [hs0]
  · by_cases hBA : 2 ^ k ≤ sec * 2 ^ k + m
    · have hABle : (sec * 2 ^ k + m) / 2 ^ k ≤ sec + 1 := by
        have hsum : (sec + 1) * 2 ^ k = sec * 2 ^ k + 2 ^ k := by ring
        have hle : sec * 2 ^ k + m ≤ (sec + 1) * 2 ^ k := by omega
        calc (sec * 2 ^ k + m) / 2 ^ k
            ≤ ((sec + 1) * 2 ^ k) / 2 ^ k := Nat.div_le_div_right hle
          _ = sec + 1 := Nat.mul_div_cancel _ hB
      have he : nlog2 ((sec * 2 ^ k + m) / 2 ^ k) < 52 := by
        by_contra hc
        push_neg at hc
        have h1 : 0 < (sec * 2 ^ k + m) / 2 ^ k :=
          (Nat.one_le_div_iff hB).mpr hBA
        have h2 := nlog2_le _ h1
        have h3 : (2 : Nat) ^ 52 ≤ 2 ^ nlog2 ((sec * 2 ^ k + m) / 2 ^ k) :=
          Nat.pow_le_pow_right (by omega) hc
        omega
      rw [roundFloat_ge _ _ hA0 hBA he]
      dsimp only
      have hK2 : 2 ≤ 2 ^ (52 - nlog2 ((sec * 2 ^ k + m) / 2 ^ k)) := by
        calc (2 : Nat) = 2 ^ 1 := (pow_one 2).symm
          _ ≤ 2 ^ (52 - nlog2 ((sec * 2 ^ k + m) / 2 ^ k)) :=
            Nat.pow_le_pow_right (by omega) (by omega)
      exact rne_scaled_bounds sec m k _ hm hK2
    · have hs0 : sec = 0 := by
        by_contra h
        have h1 : 2 ^ k ≤ sec * 2 ^ k := Nat.le_mul_of_pos_left _ (by omega)
        omega
      subst hs0
      rw [zero_mul, zero_add] at hA0 hBA ⊢
      obtain ⟨g, hg⟩ := roundFloat_lt m (2 ^ k) hA0 hBA
      rw [hg]
      dsimp only
      refine ⟨Nat.zero_le _, ?_⟩
      have hq : m * 2 ^ (52 + g) / 2 ^ k < 2 ^ (52 + g) := by
        rw [Nat.div_lt_iff_lt_mul hB, Nat.mul_comm (2 ^ (52 + g)) (2 ^ k)]
        exact (Nat.mul_lt_mul_right (pow_pos (by omega) _)).mpr (by omega)
      have hle : rne (m * 2 ^ (52 + g)) (2 ^ k) ≤ 2 ^ (52 + g) := by
        rcases rne_mem (m * 2 ^ (52 + g)) (2 ^ k) with hr | hr <;> omega
      have hone : rne (m * 2 ^ (52 + g)) (2 ^ k) / 2 ^ (52 + g) ≤ 1 := by
        calc rne (m * 2 ^ (52 + g)) (2 ^ k) / 2 ^ (52 + g)
            ≤ 2 ^ (52 + g) / 2 ^ (52 + g) := Nat.div_le_div_right hle
          _ = 1 := Nat.div_self (pow_pos (by omega) _)
      omega

theorem goIntSeconds_bounds (ns : Nat) (hrange : ns < 9223372036854775808) :
    ns / 1000000000 ≤ goIntSeconds ns
    ∧ goIntSeconds ns ≤ ns / 1000000000 + 1
    ∧ (ns % 1000000000 = 0 → goIntSeconds ns = ns / 1000000000) := by
  have hsec : ns / 1000000000 < 17179869184 := by omega
  by_cases hz : ns % 1000000000 = 0
  · have heq : goIntSeconds ns = ns / 1000000000 := by
      by_cases hn0 : ns = 0
      · subst hn0
        rfl
      · have hsec0 : 0 < ns / 1000000000 := by omega
        simp only [goIntSeconds, hz, roundFloat_zero, pow_zero, mul_one,
          add_zero]
        exact roundFloat_nat _ hsec0 (by omega)
    exact ⟨by omega, by omega, fun _ => heq⟩
  · have hm : (roundFloat (ns % 1000000000) 1000000000).1
        ≤ 2 ^ (roundFloat (ns % 1000000000) 1000000000).2 :=
      roundFloat_le_pow _ _ (by omega) (by omega)
    have hb := roundFloat_int_bounds (ns / 1000000000)
      (roundFloat (ns % 1000000000) 1000000000).1
      (roundFloat (ns % 1000000000) 1000000000).2 hm hsec
    refine ⟨?_, ?_, fun hcontra => absurd hcontra hz⟩
    · simp only [goIntSeconds]
      exact hb.1
    · simp only [goIntSeconds]
      exact hb.2

/-- Claim C9 (counterexample): with ttl = 8589934592999999999 ns — a valid
duration of 2^33 seconds minus one nanosecond — `expire` succeeds and the
immediate `ttl` read returns 8589934593 whole seconds: the float64 addition
inside `Duration.Seconds` rounds 8589934592.999999999 up to 8589934593.0
(the spacing of doubles at 2^33 is 2^-19 s), so the returned value exceeds
ttl and the claimed bound v ≤ ttl fails. -/
theorem C9_counterexample :
    (MemoryStore.expire ⟨[("k", Val.str "v")], []⟩ 0 "k"
        8589934592999999999 none).2 = Except.ok ()
    ∧ MemoryStore.ttl
        (MemoryStore.expire ⟨[("k", Val.str "v")], []⟩ 0 "k"
          8589934592999999999 none).1 0 "k"
      = Except.ok 8589934593
    ∧ ¬((8589934593 : Int) * 1000000000 ≤ 8589934592999999999) :=
  ⟨rfl, rfl, by decide⟩

/-- Claim C9 (amended): immediately after a successful `expire(key, ttl)`
with `0 < ttl` within the int64 duration range (no intervening delay: the
same instant `now` is used), `ttl(key)` returns a value `v` that differs
from `ttl` by less than one whole second: `ttl - 1 < v < ttl + 1` in
seconds — stated over nanoseconds as
`ttl < (v+1) * 10^9` and `v * 10^9 < ttl + 10^9`.  The float64 rounding
inside `Duration.Seconds` can report one more second than the exact floor,
so only this one-unit band holds, not the claimed `v ≤ ttl`. -/
theorem C9_amended (st : MemoryStore) (now : Int) (key : String)
    (ttl : Int) (opts : Option ExpireOptions) (hpos : 0 < ttl)
    (hrange : ttl < 9223372036854775808)
    (hok : (MemoryStore.expire st now key ttl opts).2 = Except.ok ()) :
    ∃ v : Int,
      MemoryStore.ttl (MemoryStore.expire st now key ttl opts).1 now key
        = Except.ok v
      ∧ ttl < (v + 1) * 1000000000 ∧ v * 1000000000 < ttl + 1000000000 := by
  simp only [MemoryStore.expire] at hok ⊢
  split_ifs at hok ⊢ with h0 h1 h2 h3 h4 h5
  all_goals simp at hok
  all_goals try omega
  · simp only [MemoryStore.ttl, amGet_amSet_self, add_sub_cancel_left,
      if_pos hpos]
    refine ⟨((goIntSeconds ttl.toNat : Nat) : Int), rfl, ?_, ?_⟩
    · have hc : (ttl.toNat : Int) = ttl := Int.toNat_of_nonneg (le_of_lt hpos)
      have hb := goIntSeconds_bounds ttl.toNat (by omega)
      omega
    · have hc : (ttl.toNat : Int) = ttl := Int.toNat_of_nonneg (le_of_lt hpos)
      have hb := goIntSeconds_bounds ttl.toNat (by omega)
      rcases Nat.eq_zero_or_pos (ttl.toNat % 1000000000) with hz | hz
      · have hv := hb.2.2 hz
        omega
      · omega

/-- Claim C9 (witness for the amended theorem): expiring "k" for 1.5
seconds and reading the ttl at the same instant yields a value (namely 1)
within the one-second band. -/
theorem C9_amended_witness :
    ∃ v : Int,
      MemoryStore.ttl
          (MemoryStore.expire ⟨[("k", Val.str "v")], []⟩ 0 "k" 1500000000 none).1
          0 "k"
        = Except.ok v
      ∧ (1500000000 : Int) < (v + 1) * 1000000000
      ∧ v * 1000000000 < 1500000000 + 1000000000 :=
  C9_amended ⟨[("k", Val.str "v")], []⟩ 0 "k" 1500000000 none (by omega)
    (by omega) rfl

/-! Claim C6. -/

/-- Claim C6: the general by-rank semantics hold — `getRange` resolves a
negative index `i` as `length + i`, clamps the inclusive rank interval to
`[0, length-1]`, returns it ascending, and is empty when start exceeds stop
after clamping (it agrees with the spec-side `rangeByRankSpec` on every
skip list whose tracked length matches its chain) — but the claim's
concrete example never executes: `ZADD k 1 a 2 b 3 c` on a fresh store
panics inside `SortedSet.Add` (assignment to the zero value's nil `dict`
map), so the subsequent `ZRANGE k 0 -1` is unreachable. -/
theorem C6_range_by_rank :
    (∀ (sl : Skiplist) (start stop : Int),
      sl.length = (sl.nodes.length : Int) →
      sl.getRange start stop = rangeByRankSpec sl.nodes start stop)
    ∧ MemoryStore.zaddGo MemoryStore.empty "k"
        [⟨1, "a"⟩, ⟨2, "b"⟩, ⟨3, "c"⟩] none
      = GoOutcome.panic "assignment to entry in nil map" := by
  refine ⟨?_, rfl⟩
  intro sl start stop h
  simp only [Skiplist.getRange, rangeByRankSpec, h]
  have hmax : ∀ a : Int, (if a < 0 then 0 else a) = max a 0 := by
    intro a
    rcases le_or_lt 0 a with h1 | h1
    · rw [if_neg (not_lt.mpr h1), max_eq_left h1]
    · rw [if_pos h1, max_eq_right (le_of_lt h1)]
  have hmin : ∀ a n : Int, (if a ≥ n then n - 1 else a) = min a (n - 1) := by
    intro a n
    rcases le_or_lt n a with h1 | h1
    · rw [if_pos h1, min_eq_right (by omega)]
    · rw [if_neg (not_le.mpr h1), min_eq_left (by omega)]
  rw [hmax, hmin]

/-- Claim C6 (witness for the general part): on the one-node list the code
range agrees with the spec-side description. -/
theorem C6_range_by_rank_witness :
    Skiplist.getRange ⟨[⟨1, "a"⟩], 1⟩ 0 (-1)
      = rangeByRankSpec [⟨1, "a"⟩] 0 (-1) :=
  C6_range_by_rank.1 ⟨[⟨1, "a"⟩], 1⟩ 0 (-1) rfl

/-! Claim C7. -/

/-- Claim C7 (counterexample): on `ZADD k 1 a 2 b 3 c`, a by-rank
`ZRANGE k 0 -1` with `LIMIT 0 1` is truncated to `["a"]` even though the
range type is by-rank, while the same call without LIMIT yields all three
members — contradicting the claim that by-rank results are never truncated
by LIMIT. -/
theorem C7_counterexample :
    MemoryStore.zrange C7_state "k" (RangeArg.i 0) (RangeArg.i (-1))
        (some ⟨"", false, 0, 1, false⟩) = Except.ok [RVal.s "a"]
    ∧ MemoryStore.zrange C7_state "k" (RangeArg.i 0) (RangeArg.i (-1))
        (some ⟨"", false, 0, 0, false⟩)
      = Except.ok [RVal.s "a", RVal.s "b", RVal.s "c"] :=
  ⟨rfl, rfl⟩

theorem zrangeLimit_pos (o : ZRangeOptions) (l : List RVal)
    (hc : 0 < o.limitCount) :
    zrangeLimit (some o) l = applyLimit o.limitOffset o.limitCount l := by
  simp only [zrangeLimit, applyLimit, if_pos hc]

theorem zrangeLimit_zero (rt : String) (rv : Bool) (off : Int) (ws : Bool)
    (l : List RVal) : zrangeLimit (some ⟨rt, rv, off, 0, ws⟩) l = l := rfl

/-- Claim C7 (amended): the LIMIT offset/count truncation is applied to the
result whenever `Limit.Count > 0`, for every range type — by-rank included —
and is the identity when the count is zero. -/
theorem C7_amended (st : MemoryStore) (key : String) (start stop : RangeArg)
    (o : ZRangeOptions) (hc : 0 < o.limitCount) :
    MemoryStore.zrange st key start stop (some o)
      = (MemoryStore.zrange st key start stop
          (some ⟨o.rangeType, o.rev, o.limitOffset, 0, o.withScores⟩)).map
        (applyLimit o.limitOffset o.limitCount) := by
  cases hv : amGet st.data key with
  | none =>
    simp only [MemoryStore.zrange, hv, Except.map, applyLimit]
    split
    · rfl
    · simp
  | some val =>
    cases val with
    | str s => simp only [MemoryStore.zrange, hv, Except.map]
    | zset z =>
      simp only [MemoryStore.zrange, hv]
      have hd : zrangeDispatch z start stop
          (some ⟨o.rangeType, o.rev, o.limitOffset, 0, o.withScores⟩)
          = zrangeDispatch z start stop (some o) := rfl
      rw [hd]
      cases hr : zrangeDispatch z start stop (some o) with
      | error e => rfl
      | ok l =>
        simp only [Except.map]
        rw [zrangeLimit_pos o l hc, zrangeLimit_zero]

/-- Claim C7 (witness for the amended theorem): a by-rank range with
`LIMIT 0 1` equals the truncation of the same range without LIMIT. -/
theorem C7_amended_witness :
    MemoryStore.zrange C7_state "k" (RangeArg.i 0) (RangeArg.i (-1))
        (some ⟨"", false, 0, 1, false⟩)
      = (MemoryStore.zrange C7_state "k" (RangeArg.i 0) (RangeArg.i (-1))
          (some ⟨"", false, 0, 0, false⟩)).map (applyLimit 0 1) :=
  C7_amended C7_state "k" (RangeArg.i 0) (RangeArg.i (-1))
    ⟨"", false, 0, 1, false⟩ (by decide)

/-! Claim C10. -/

theorem rangeByScore_members (z : SortedSet) (mn mx : Score) (rv : Bool) :
    ∀ v ∈ z.rangeByScore mn mx rv, ∃ m, v = RVal.s m := by
  intro v hv
  simp only [SortedSet.rangeByScore] at hv
  split at hv
  · rw [List.mem_reverse] at hv
    obtain ⟨p, hp, hpe⟩ := List.mem_map.mp hv
    exact ⟨p.2, hpe.symm⟩
  · obtain ⟨p, hp, hpe⟩ := List.mem_map.mp hv
    exact ⟨p.2, hpe.symm⟩

theorem rangeByLex_members (z : SortedSet) (mn mx : String) (rv : Bool) :
    ∀ v ∈ z.rangeByLex mn mx rv, ∃ m, v = RVal.s m := by
  intro v hv
  simp only [SortedSet.rangeByLex] at hv
  split at hv
  · rw [List.mem_reverse] at hv
    obtain ⟨p, hp, hpe⟩ := List.mem_map.mp hv
    exact ⟨p, hpe.symm⟩
  · obtain ⟨p, hp, hpe⟩ := List.mem_map.mp hv
    exact ⟨p, hpe.symm⟩

theorem zrangeLimit_subset (opts : Option ZRangeOptions) (l : List RVal) :
    ∀ v ∈ zrangeLimit opts l, v ∈ l := by
  intro v hv
  cases opts with
  | none => exact hv
  | some o =>
    simp only [zrangeLimit] at hv
    split at hv
    · split at hv
      · cases hv
      · exact List.drop_subset _ _ (List.take_subset _ _ hv)
    · exact hv

/-- Claim C10: when the range type is by-score or by-lex, a successful
`zRange` reply consists of member strings only (no scores), and the
WITHSCORES flag has no effect on the reply. -/
theorem C10_score_lex_members_only (st : MemoryStore) (key : String)
    (start stop : RangeArg) (o : ZRangeOptions)
    (h : o.rangeType = "BYSCORE" ∨ o.rangeType = "BYLEX") :
    (∀ l, MemoryStore.zrange st key start stop (some o) = Except.ok l →
      ∀ v ∈ l, ∃ m, v = RVal.s m)
    ∧ (∀ w : Bool,
      MemoryStore.zrange st key start stop (some o)
        = MemoryStore.zrange st key start stop
            (some ⟨o.rangeType, o.rev, o.limitOffset, o.limitCount, w⟩)) := by
  have hsc1 : (("BYSCORE" : String) == "BYSCORE") = true := rfl
  have hlx0 : (("BYLEX" : String) == "BYSCORE") = false := rfl
  have hlx1 : (("BYLEX" : String) == "BYLEX") = true := rfl
  have hdd : ∀ (z : SortedSet) (l : List RVal),
      zrangeDispatch z start stop (some o) = Except.ok l →
      ∀ v ∈ l, ∃ m, v = RVal.s m := by
    intro z l hl v hv
    rcases h with hsc | hlx
    · cases start with
      | f mn =>
        cases stop with
        | f mx =>
          simp [zrangeDispatch, optB, hsc, hsc1] at hl
          subst hl
          exact rangeByScore_members z mn mx _ v hv
        | i a => simp [zrangeDispatch, optB, hsc, hsc1] at hl
        | s a => simp [zrangeDispatch, optB, hsc, hsc1] at hl
      | i a => cases stop <;> simp [zrangeDispatch, optB, hsc, hsc1] at hl
      | s a => cases stop <;> simp [zrangeDispatch, optB, hsc, hsc1] at hl
    · cases start with
      | s mn =>
        cases stop with
        | s mx =>
          simp [zrangeDispatch, optB, hlx, hlx0, hlx1] at hl
          subst hl
          exact rangeByLex_members z mn mx _ v hv
        | i a => simp [zrangeDispatch, optB, hlx, hlx0, hlx1] at hl
        | f a => simp [zrangeDispatch, optB, hlx, hlx0, hlx1] at hl
      | i a => cases stop <;> simp [zrangeDispatch, optB, hlx, hlx0, hlx1] at hl
      | f a => cases stop <;> simp [zrangeDispatch, optB, hlx, hlx0, hlx1] at hl
  constructor
  · intro l hl v hv
    cases hst : amGet st.data key with
    | none =>
      simp only [MemoryStore.zrange, hst] at hl
      injection hl with hl
      subst hl
      cases hv
    | some val =>
      cases val with
      | str s =>
        simp only [MemoryStore.zrange, hst] at hl
        exact absurd hl (by simp)
      | zset z =>
        simp only [MemoryStore.zrange, hst] at hl
        cases hr : zrangeDispatch z start stop (some o) with
        | error e =>
          rw [hr] at hl
          exact absurd hl (by simp [Except.map])
        | ok l0 =>
          rw [hr] at hl
          simp only [Except.map] at hl
          injection hl with hl
          subst hl
          exact hdd z l0 hr v (zrangeLimit_subset (some o) l0 v hv)
  · intro w
    cases hst : amGet st.data key with
    | none => simp only [MemoryStore.zrange, hst]
    | some val =>
      cases val with
      | str s => simp only [MemoryStore.zrange, hst]
      | zset z =>
        simp only [MemoryStore.zrange, hst]
        have hdw : zrangeDispatch z start stop
            (some ⟨o.rangeType, o.rev, o.limitOffset, o.limitCount, w⟩)
            = zrangeDispatch z start stop (some o) := by
          rcases h with hsc | hlx
          · simp [zrangeDispatch, optB, hsc, hsc1]
          · simp [zrangeDispatch, optB, hlx, hlx0, hlx1]
        rw [hdw]
        rfl

/-- Claim C10 (witness): a by-score range on `ZADD k 1 a 2 b 3 c` is
unchanged by the WITHSCORES flag. -/
theorem C10_score_lex_members_only_witness :
    MemoryStore.zrange C10_state "k" (RangeArg.f 1) (RangeArg.f 3)
        (some ⟨"BYSCORE", false, 0, 0, false⟩)
      = MemoryStore.zrange C10_state "k" (RangeArg.f 1) (RangeArg.f 3)
        (some ⟨"BYSCORE", false, 0, 0, true⟩) :=
  (C10_score_lex_members_only C10_state "k" (RangeArg.f 1) (RangeArg.f 3)
    ⟨"BYSCORE", false, 0, 0, false⟩ (Or.inl rfl)).2 true

end GoRedis
